import Mathlib

/-!
Verification of the MWZ Onboarding API (src/mwz_onboarding_api_node_js_express.js).

The JavaScript source is shallowly embedded below:
* `Json` models the JSON values flowing through the handlers; `truthy` models
  JavaScript truthiness of those values.
* `slugify` models the `slugify` helper (lines 51-56 of the source):
  `String(input || '').trim().toLowerCase().replace(/[^a-z0-9]+/g, '-')
   .replace(/(^-|-$)+/g, '') || 'player'`.
  `toLowerCase` is modelled by its ASCII simple case mapping (`jsToLower`);
  every character outside `[a-z0-9]` is collapsed into a hyphen by the first
  replace regardless of the case mapping, so the proved properties are
  insensitive to this restriction.
* `githubGetContent` / `githubUpsertFile` model the content-store client; the
  remote store is abstracted as a `BackendBehavior` giving the outcome of the
  GET and PUT primitives, and the performed calls are logged in a `Call` list.
* `handleSave`, `handleLoad`, `handleHealth` model the Express routes together
  with the `x-api-key` middleware that runs in front of every route.
* `b64OfString` / `strOfB64` model `Buffer.from(s).toString('base64')` and
  `Buffer.from(s, 'base64').toString('utf8')` (UTF-8 bytes, base64 alphabet);
  `jsonStringify` models `JSON.stringify(v, null, 2)`.
-/

namespace MWZ

/-- JSON values as parsed by `express.json()` and produced by the handlers.
Object fields are kept in insertion order; objects coming from `JSON.parse`
have pairwise distinct keys (later duplicates overwrite earlier ones). -/
inductive Json where
  | null : Json
  | bool : Bool → Json
  | num : Int → Json
  | str : String → Json
  | arr : List Json → Json
  | obj : List (String × Json) → Json
deriving Repr

/-- Field lookup in an object's field list (first match; keys are distinct). -/
def lookupField : List (String × Json) → String → Option Json
  | [], _ => none
  | (k, v) :: rest, name => if k = name then some v else lookupField rest name

/-- JavaScript property access `j.name`, returning `none` for `undefined`
(absent key or non-object receiver). -/
def getField : Json → String → Option Json
  | Json.obj fs, name => lookupField fs name
  | _, _ => none

/-- JavaScript truthiness of a JSON value: `null`, `false`, `0` and `""` are
falsy; arrays and objects are always truthy. -/
def truthy : Json → Bool
  | Json.null => false
  | Json.bool b => b
  | Json.num n => decide (n ≠ 0)
  | Json.str s => decide (s ≠ "")
  | Json.arr _ => true
  | Json.obj _ => true

mutual
/-- JavaScript `String(v)` conversion for JSON values: strings unchanged,
`true`/`false`/`null` spelled out, integers in decimal, arrays joined by
commas with `null` elements becoming empty, objects as `[object Object]`. -/
def jsToString : Json → String
  | Json.null => "null"
  | Json.bool true => "true"
  | Json.bool false => "false"
  | Json.num n => toString n
  | Json.str s => s
  | Json.arr xs => jsToStringItems xs
  | Json.obj _ => "[object Object]"

def jsToStringItems : List Json → String
  | [] => ""
  | [Json.null] => ""
  | [v] => jsToString v
  | Json.null :: w :: rest => "," ++ jsToStringItems (w :: rest)
  | v :: w :: rest => jsToString v ++ "," ++ jsToStringItems (w :: rest)
end

/-- JavaScript `String(v || '')` applied to a possibly-undefined value, as in
the head of `slugify`: `undefined` and falsy values become the empty string. -/
def jsStringOfOpt : Option Json → String
  | none => ""
  | some v => if truthy v then jsToString v else ""

/-- The character class `[a-z0-9]` of the slugify regexes. -/
def isSlugChar (c : Char) : Bool :=
  (97 ≤ c.toNat && c.toNat ≤ 122) || (48 ≤ c.toNat && c.toNat ≤ 57)

/-- The JavaScript `String.prototype.trim` whitespace class: WhiteSpace
(TAB VT FF SP NBSP ZWNBSP and the Unicode space separators) together with the
LineTerminators LF CR LS PS. -/
def jsWhitespace (c : Char) : Bool :=
  c.toNat = 9 || c.toNat = 10 || c.toNat = 11 || c.toNat = 12 || c.toNat = 13 ||
  c.toNat = 32 || c.toNat = 160 || c.toNat = 5760 ||
  (8192 ≤ c.toNat && c.toNat ≤ 8202) ||
  c.toNat = 8232 || c.toNat = 8233 || c.toNat = 8239 || c.toNat = 8287 ||
  c.toNat = 12288 || c.toNat = 65279

/-- `String.prototype.trim`: strip leading and trailing whitespace. -/
def jsTrim (l : List Char) : List Char :=
  ((l.dropWhile jsWhitespace).reverse.dropWhile jsWhitespace).reverse

/-- `String.prototype.toLowerCase`, restricted to the ASCII simple case
mapping `A-Z → a-z` (see the module comment). -/
def jsToLower (c : Char) : Char :=
  if 65 ≤ c.toNat && c.toNat ≤ 90 then Char.ofNat (c.toNat + 32) else c

/-- `replace(/[^a-z0-9]+/g, '-')` as a character state machine: the flag
records whether we are inside a run of disallowed characters whose hyphen has
already been emitted. -/
def replaceRunsGo : Bool → List Char → List Char
  | _, [] => []
  | inRun, c :: cs =>
    if isSlugChar c then c :: replaceRunsGo false cs
    else if inRun then replaceRunsGo true cs
    else '-' :: replaceRunsGo true cs

/-- `replace(/[^a-z0-9]+/g, '-')`: collapse every maximal run of characters
outside `[a-z0-9]` into a single hyphen. -/
def replaceNonAlnumRuns (l : List Char) : List Char :=
  replaceRunsGo false l

/-- `replace(/(^-|-$)+/g, '')` on the output of the previous replace: that
output carries at most one leading and one trailing hyphen and no two adjacent
hyphens, on which the regex removes exactly the leading hyphen (if any) and
the trailing hyphen (if any). -/
def stripEdgeHyphens (l : List Char) : List Char :=
  let l1 := if l.head? = some '-' then l.tail else l
  if l1.getLast? = some '-' then l1.dropLast else l1

/-- The `slugify` helper (source lines 51-56), for a string argument
(`String(input || '')` is the identity on strings). -/
def slugify (input : String) : String :=
  let cleaned := stripEdgeHyphens (replaceNonAlnumRuns ((jsTrim input.data).map jsToLower))
  if cleaned.isEmpty then "player" else String.mk cleaned

/-- `slugify(profile.discord)` as called by the save route: the argument can
be absent or any JSON value, which `String(input || '')` turns into a string. -/
def slugifyOfJson (v : Option Json) : String :=
  slugify (jsStringOfOpt v)

/-- Recogniser for the spec pattern `^[a-z0-9]+(-[a-z0-9]+)*$`, as a state
machine: the flag is true while at least one `[a-z0-9]` character is still
required before the next hyphen or the end. -/
def slugPatOk : Bool → List Char → Bool
  | true, [] => false
  | false, [] => true
  | true, c :: cs => isSlugChar c && slugPatOk false cs
  | false, c :: cs =>
    if isSlugChar c then slugPatOk false cs else decide (c = '-') && slugPatOk true cs

/-- The pattern `^[a-z0-9]+(-[a-z0-9]+)*$` of spec section 8. -/
def matchesSlugPattern (l : List Char) : Bool :=
  slugPatOk true l

/-- UTF-8 encoding of one Unicode scalar value (as used by `Buffer.from(s)`),
bytes and code points represented as natural numbers. -/
def utf8EncodeChar (n : Nat) : List Nat :=
  if n < 128 then [n]
  else if n < 2048 then [192 + n / 64, 128 + n % 64]
  else if n < 65536 then [224 + n / 4096, 128 + n / 64 % 64, 128 + n % 64]
  else [240 + n / 262144, 128 + n / 4096 % 64, 128 + n / 64 % 64, 128 + n % 64]

/-- UTF-8 encoding of a code point sequence. -/
def utf8Encode : List Nat → List Nat
  | [] => []
  | c :: cs => utf8EncodeChar c ++ utf8Encode cs

/-- Lenient UTF-8 decoding as performed by `buffer.toString('utf8')`: invalid
or truncated sequences produce the replacement character U+FFFD and decoding
resynchronises at the next byte. -/
def utf8DecodeLenient : List Nat → List Nat
  | [] => []
  | b0 :: rest =>
    if b0 < 128 then b0 :: utf8DecodeLenient rest
    else if b0 < 192 then 65533 :: utf8DecodeLenient rest
    else if b0 < 224 then
      let b1 := rest.headD 256
      let cp := (b0 - 192) * 64 + (b1 - 128)
      if 128 ≤ b1 ∧ b1 < 192 ∧ 194 ≤ b0 then cp :: utf8DecodeLenient (rest.drop 1)
      else 65533 :: utf8DecodeLenient rest
    else if b0 < 240 then
      let b1 := rest.headD 256
      let b2 := (rest.drop 1).headD 256
      let cp := (b0 - 224) * 4096 + (b1 - 128) * 64 + (b2 - 128)
      if 128 ≤ b1 ∧ b1 < 192 ∧ 128 ≤ b2 ∧ b2 < 192 ∧ 2048 ≤ cp ∧
          ¬(55296 ≤ cp ∧ cp ≤ 57343) then cp :: utf8DecodeLenient (rest.drop 2)
      else 65533 :: utf8DecodeLenient rest
    else if b0 < 248 then
      let b1 := rest.headD 256
      let b2 := (rest.drop 1).headD 256
      let b3 := (rest.drop 2).headD 256
      let cp := (b0 - 240) * 262144 + (b1 - 128) * 4096 + (b2 - 128) * 64 + (b3 - 128)
      if 128 ≤ b1 ∧ b1 < 192 ∧ 128 ≤ b2 ∧ b2 < 192 ∧ 128 ≤ b3 ∧ b3 < 192 ∧
          65536 ≤ cp ∧ cp < 1114112 then cp :: utf8DecodeLenient (rest.drop 3)
      else 65533 :: utf8DecodeLenient rest
    else 65533 :: utf8DecodeLenient rest
termination_by l => l.length
decreasing_by all_goals (simp [List.length_drop]; try omega)

/-- One-step unfolding equation for `utf8DecodeLenient` on a cons cell. -/
theorem utf8DecodeLenient_cons (b0 : Nat) (rest : List Nat) :
    utf8DecodeLenient (b0 :: rest) =
      (if b0 < 128 then b0 :: utf8DecodeLenient rest
      else if b0 < 192 then 65533 :: utf8DecodeLenient rest
      else if b0 < 224 then
        let b1 := rest.headD 256
        let cp := (b0 - 192) * 64 + (b1 - 128)
        if 128 ≤ b1 ∧ b1 < 192 ∧ 194 ≤ b0 then cp :: utf8DecodeLenient (rest.drop 1)
        else 65533 :: utf8DecodeLenient rest
      else if b0 < 240 then
        let b1 := rest.headD 256
        let b2 := (rest.drop 1).headD 256
        let cp := (b0 - 224) * 4096 + (b1 - 128) * 64 + (b2 - 128)
        if 128 ≤ b1 ∧ b1 < 192 ∧ 128 ≤ b2 ∧ b2 < 192 ∧ 2048 ≤ cp ∧
            ¬(55296 ≤ cp ∧ cp ≤ 57343) then cp :: utf8DecodeLenient (rest.drop 2)
        else 65533 :: utf8DecodeLenient rest
      else if b0 < 248 then
        let b1 := rest.headD 256
        let b2 := (rest.drop 1).headD 256
        let b3 := (rest.drop 2).headD 256
        let cp := (b0 - 240) * 262144 + (b1 - 128) * 4096 + (b2 - 128) * 64 + (b3 - 128)
        if 128 ≤ b1 ∧ b1 < 192 ∧ 128 ≤ b2 ∧ b2 < 192 ∧ 128 ≤ b3 ∧ b3 < 192 ∧
            65536 ≤ cp ∧ cp < 1114112 then cp :: utf8DecodeLenient (rest.drop 3)
        else 65533 :: utf8DecodeLenient rest
      else 65533 :: utf8DecodeLenient rest) := by
  rw [utf8DecodeLenient.eq_def]

/-- The base64 alphabet character for a sextet. -/
def b64Char (n : Nat) : Char :=
  if n < 26 then Char.ofNat (65 + n)
  else if n < 52 then Char.ofNat (97 + (n - 26))
  else if n < 62 then Char.ofNat (48 + (n - 52))
  else if n = 62 then '+'
  else '/'

/-- The sextet of a base64 alphabet character (`none` outside the alphabet,
including the `=` padding, which `Buffer.from(s, 'base64')` skips over). -/
def b64DecChar (c : Char) : Option Nat :=
  if 65 ≤ c.toNat ∧ c.toNat ≤ 90 then some (c.toNat - 65)
  else if 97 ≤ c.toNat ∧ c.toNat ≤ 122 then some (c.toNat - 97 + 26)
  else if 48 ≤ c.toNat ∧ c.toNat ≤ 57 then some (c.toNat - 48 + 52)
  else if c = '+' then some 62
  else if c = '/' then some 63
  else none

/-- Base64 encoding of a byte sequence, with `=` padding, as produced by
`buffer.toString('base64')`. -/
def base64Encode : List Nat → List Char
  | [] => []
  | [a] => [b64Char (a / 4), b64Char (a % 4 * 16), '=', '=']
  | [a, b] => [b64Char (a / 4), b64Char (a % 4 * 16 + b / 16), b64Char (b % 16 * 4), '=']
  | a :: b :: c :: rest =>
    b64Char (a / 4) :: b64Char (a % 4 * 16 + b / 16) :: b64Char (b % 16 * 4 + c / 64) ::
      b64Char (c % 64) :: base64Encode rest

/-- Regrouping of a sextet sequence into bytes (4 sextets to 3 bytes, with
the lenient tail handling of `Buffer.from(s, 'base64')`). -/
def b64Bytes : List Nat → List Nat
  | s0 :: s1 :: s2 :: s3 :: rest =>
    (s0 * 4 + s1 / 16) :: (s1 % 16 * 16 + s2 / 4) :: (s2 % 4 * 64 + s3) :: b64Bytes rest
  | [s0, s1, s2] => [s0 * 4 + s1 / 16, s1 % 16 * 16 + s2 / 4]
  | [s0, s1] => [s0 * 4 + s1 / 16]
  | _ => []

/-- Base64 decoding as performed by `Buffer.from(s, 'base64')`: characters
outside the alphabet (padding included) are skipped, then sextets are
regrouped into bytes. -/
def base64Decode (cs : List Char) : List Nat :=
  b64Bytes (cs.filterMap b64DecChar)

/-- The UTF-8 bytes of a string, `Buffer.from(s)`. -/
def strBytes (s : String) : List Nat :=
  utf8Encode (s.data.map Char.toNat)

/-- `Buffer.from(s).toString('base64')` (source line 75). -/
def b64OfString (s : String) : String :=
  String.mk (base64Encode (strBytes s))

/-- `Buffer.from(s, 'base64').toString('utf8')` (source line 116). -/
def strOfB64 (s : String) : String :=
  String.mk ((utf8DecodeLenient (base64Decode s.data)).map Char.ofNat)

/-- Lowercase hexadecimal digit. -/
def hexDigit (n : Nat) : Char :=
  if n < 10 then Char.ofNat (48 + n) else Char.ofNat (87 + n)

/-- The JSON escape of one character inside a string literal, as produced by
`JSON.stringify`. -/
def escapeChar (c : Char) : String :=
  if c = '"' then "\\\""
  else if c = '\\' then "\\\\"
  else if c.toNat = 8 then "\\b"
  else if c.toNat = 9 then "\\t"
  else if c.toNat = 10 then "\\n"
  else if c.toNat = 12 then "\\f"
  else if c.toNat = 13 then "\\r"
  else if c.toNat < 32 then "\\u00" ++ String.mk [hexDigit (c.toNat / 16), hexDigit (c.toNat % 16)]
  else String.mk [c]

/-- A JSON string literal with quotes and escapes, as in `JSON.stringify`. -/
def jsonQuote (s : String) : String :=
  "\"" ++ String.join (s.data.map escapeChar) ++ "\""

mutual
/-- `JSON.stringify(v, null, 2)` (source line 75): pretty printing with a
two-space indent; `ind` is the indentation prefix of the line on which the
value starts. -/
def jsonStringify : Json → String → String
  | Json.null, _ => "null"
  | Json.bool true, _ => "true"
  | Json.bool false, _ => "false"
  | Json.num n, _ => toString n
  | Json.str s, _ => jsonQuote s
  | Json.arr [], _ => "[]"
  | Json.arr (x :: xs), ind =>
    "[\n" ++ jsonStringifyItems (x :: xs) (ind ++ "  ") ++ "\n" ++ ind ++ "]"
  | Json.obj [], _ => "\x7b\x7d"
  | Json.obj (f :: fs), ind =>
    "\x7b\n" ++ jsonStringifyFields (f :: fs) (ind ++ "  ") ++ "\n" ++ ind ++ "\x7d"

def jsonStringifyItems : List Json → String → String
  | [], _ => ""
  | [x], ind => ind ++ jsonStringify x ind
  | x :: y :: rest, ind =>
    ind ++ jsonStringify x ind ++ ",\n" ++ jsonStringifyItems (y :: rest) ind

def jsonStringifyFields : List (String × Json) → String → String
  | [], _ => ""
  | [(k, v)], ind => ind ++ jsonQuote k ++ ": " ++ jsonStringify v ind
  | (k, v) :: g :: rest, ind =>
    ind ++ jsonQuote k ++ ": " ++ jsonStringify v ind ++ ",\n" ++
      jsonStringifyFields (g :: rest) ind
end

/-- The configuration drawn from the environment: `API_KEY` (empty string
when the optional secret is not set, exactly as in the source default),
`GITHUB_BRANCH` and `GITHUB_DIR`. `GITHUB_TOKEN`/`OWNER`/`REPO` only shape
the backend URLs, which the backend abstraction absorbs. -/
structure Config where
  apiKey : String
  branch : String
  dir : String

/-- The metadata of a stored object as returned by the content store's read
primitive: its base64 content and its version token (`sha`). -/
structure FileEntry where
  content : String
  sha : String
deriving Repr, DecidableEq

/-- Outcome of the store's read primitive for a path: HTTP 404, success with
the object, or any other non-success status with its body text. -/
inductive GetResult where
  | notFound : GetResult
  | found : FileEntry → GetResult
  | fail : Nat → String → GetResult
deriving Repr, DecidableEq

/-- The body of the store's write primitive as assembled by
`githubUpsertFile` (source lines 72-78): message, base64 content, branch and
the optional version token. -/
structure PutRequest where
  path : String
  message : String
  content : String
  branch : String
  sha : Option String
deriving Repr, DecidableEq

/-- Outcome of the store's write primitive: success with the parsed response
body, or a non-success status with its body text. -/
inductive PutResult where
  | ok : Json → PutResult
  | fail : Nat → String → PutResult

/-- One backend HTTP call performed by the handlers. -/
inductive Call where
  | get : String → Call
  | put : PutRequest → Call

/-- An HTTP response body: `res.json(...)` or `res.send(raw)`. -/
inductive RespBody where
  | json : Json → RespBody
  | raw : String → RespBody

/-- An HTTP response. -/
structure Response where
  status : Nat
  body : RespBody

/-- The backend content store as observed through its two primitives. -/
structure BackendBehavior where
  get : String → GetResult
  put : PutRequest → PutResult

/-- `{ error: msg }`. -/
def errorJson (msg : String) : Json :=
  Json.obj [("error", Json.str msg)]

/-- The optional shared-secret middleware (source lines 40-45): when
`API_KEY` is empty every request passes; otherwise a request whose
`x-api-key` header (`key`, `none` when absent) differs from the secret is
answered with `401 { error: 'Unauthorized' }`. Returns the short-circuit
response, or `none` to continue to the route. -/
def apiKeyGate (cfg : Config) (key : Option String) : Option Response :=
  if cfg.apiKey = "" then none
  else if key = some cfg.apiKey then none
  else some { status := 401, body := RespBody.json (errorJson "Unauthorized") }

/-- `githubGetContent` (source lines 58-64): 404 becomes `none`, any other
non-success status becomes a thrown error, success returns the object. -/
def githubGetContent (bh : BackendBehavior) (path : String) :
    Except String (Option FileEntry) :=
  match bh.get path with
  | GetResult.notFound => Except.ok none
  | GetResult.found f => Except.ok (some f)
  | GetResult.fail st body =>
    Except.error ("GitHub GET failed: " ++ toString st ++ " " ++ body)

/-- `githubUpsertFile` (source lines 66-90): read the current object to
discover its `sha`, then PUT the base64-encoded pretty-printed JSON with the
`sha` included exactly when the read returned an object with a truthy `sha`.
Returns the thrown error or the PUT response, plus the backend calls made. -/
def githubUpsertFile (cfg : Config) (bh : BackendBehavior) (path : String)
    (contentJson : Json) (message : String) : Except String Json × List Call :=
  match bh.get path with
  | GetResult.fail st body =>
    (Except.error ("GitHub GET failed: " ++ toString st ++ " " ++ body), [Call.get path])
  | g =>
    let sha : Option String :=
      match g with
      | GetResult.found f => if f.sha = "" then none else some f.sha
      | _ => none
    let req : PutRequest :=
      { path := path
        message := if message = "" then "Update " ++ path else message
        content := b64OfString (jsonStringify contentJson "")
        branch := cfg.branch
        sha := sha }
    match bh.put req with
    | PutResult.ok resp => (Except.ok resp, [Call.get path, Call.put req])
    | PutResult.fail st body =>
      (Except.error ("GitHub PUT failed: " ++ toString st ++ " " ++ body),
        [Call.get path, Call.put req])

/-- `req.body || {}` (source line 97): a falsy parsed body is replaced by the
empty object. -/
def normBody (j : Json) : Json :=
  if truthy j then j else Json.obj []

/-- `result.commit?.sha` (source line 103): optional chaining returns
`undefined` when the receiver is `undefined` or `null`. -/
def optChain (v : Option Json) (f : String) : Option Json :=
  match v with
  | none => none
  | some Json.null => none
  | some j => getField j f

/-- `v || null` applied to a possibly-undefined value (source line 103). -/
def jsOrNull (v : Option Json) : Json :=
  match v with
  | none => Json.null
  | some j => if truthy j then j else Json.null

/-- `GET /health` (source line 93), behind the shared-secret middleware. The
route performs no backend call, so the result also carries the (empty) call
list. -/
def handleHealth (cfg : Config) (key : Option String) : Response × List Call :=
  match apiKeyGate cfg key with
  | some r => (r, [])
  | none => ({ status := 200, body := RespBody.json (Json.obj [("ok", Json.bool true)]) }, [])

/-- `POST /save` (source lines 95-108), behind the shared-secret middleware:
validate presence (truthiness) of `profile` and `checks`, derive the slug
from `profile.discord`, build the envelope with the current time `now` and
`version: 1`, upsert it, and answer with path and optional commit sha; a
thrown backend error is caught and answered with status 500. -/
def handleSave (cfg : Config) (bh : BackendBehavior) (key : Option String)
    (reqBody : Json) (now : String) : Response × List Call :=
  match apiKeyGate cfg key with
  | some r => (r, [])
  | none =>
    let b := normBody reqBody
    match getField b "profile", getField b "checks" with
    | some profile, some checks =>
      if truthy profile && truthy checks then
        let slug := slugifyOfJson (getField profile "discord")
        let path := cfg.dir ++ "/" ++ slug ++ ".json"
        let payload := Json.obj [("profile", profile), ("checks", checks),
          ("savedAt", Json.str now), ("version", Json.num 1)]
        let message := "Onboarding save for " ++
          (match getField profile "discord" with
           | some d => if truthy d then jsToString d else slug
           | none => slug)
        match githubUpsertFile cfg bh path payload message with
        | (Except.ok result, calls) =>
          ({ status := 200
             body := RespBody.json (Json.obj [("ok", Json.bool true), ("path", Json.str path),
               ("commit", jsOrNull (optChain (getField result "commit") "sha"))]) }, calls)
        | (Except.error e, calls) =>
          ({ status := 500, body := RespBody.json (errorJson e) }, calls)
      else ({ status := 400, body := RespBody.json (errorJson "Missing profile or checks") }, [])
    | _, _ =>
      ({ status := 400, body := RespBody.json (errorJson "Missing profile or checks") }, [])

/-- `GET /load/:slug` (source lines 110-123), behind the shared-secret
middleware: derive the slug from the path parameter, fetch the object,
answer 404 when absent, otherwise decode the base64 content and send it
verbatim; a thrown backend error is caught and answered with status 500. -/
def handleLoad (cfg : Config) (bh : BackendBehavior) (key : Option String)
    (slugParam : String) : Response × List Call :=
  match apiKeyGate cfg key with
  | some r => (r, [])
  | none =>
    let slug := slugify slugParam
    let path := cfg.dir ++ "/" ++ slug ++ ".json"
    match githubGetContent bh path with
    | Except.error e => ({ status := 500, body := RespBody.json (errorJson e) }, [Call.get path])
    | Except.ok none =>
      ({ status := 404, body := RespBody.json (errorJson "Not found") }, [Call.get path])
    | Except.ok (some f) =>
      ({ status := 200, body := RespBody.raw (strOfB64 f.content) }, [Call.get path])

/-- A key-value view of the repository contents: path to stored object. -/
def KV := List (String × FileEntry)

/-- Lookup in the key-value store (most recent binding first). -/
def kvGet : List (String × FileEntry) → String → Option FileEntry
  | [], _ => none
  | (k, f) :: rest, p => if k = p then some f else kvGet rest p

/-- Storing an object at a path (newer bindings shadow older ones). -/
def kvInsert (p : String) (f : FileEntry) (m : List (String × FileEntry)) :
    List (String × FileEntry) :=
  (p, f) :: m

/-- The claim C1 assumption that the content store behaves as a key-value
map: GET returns exactly what is stored (404 when absent) and PUT always
succeeds, answering `putResp`. -/
def storeBehavior (m : List (String × FileEntry)) (putResp : Json) : BackendBehavior :=
  { get := fun p =>
      match kvGet m p with
      | some f => GetResult.found f
      | none => GetResult.notFound
    put := fun _ => PutResult.ok putResp }

/-! ### Properties of the key normalizer -/

/-- Every character is in `[a-z0-9]` or is a hyphen. -/
def allOkL (l : List Char) : Prop :=
  ∀ c ∈ l, isSlugChar c = true ∨ c = '-'

/-- Adjacent-pair relation: no hyphen directly follows a hyphen. -/
def hyR : Char → Char → Prop :=
  fun a b => a = '-' → b ≠ '-'

theorem isSlugChar_ne_hyphen {c : Char} (h : isSlugChar c = true) : c ≠ '-' := by
  intro he
  subst he
  exact absurd h (by decide)

theorem replaceRunsGo_allOk : ∀ (l : List Char) (b : Bool), allOkL (replaceRunsGo b l) := by
  intro l
  induction l with
  | nil => intro b c hc; simp [replaceRunsGo] at hc
  | cons c cs ih =>
    intro b x hx
    by_cases hc : isSlugChar c = true
    · simp only [replaceRunsGo, hc, if_true, List.mem_cons] at hx
      rcases hx with h | h
      · subst h; exact Or.inl hc
      · exact ih false x h
    · by_cases hb : b = true
      · simp only [replaceRunsGo, hc, if_false, hb, if_true, Bool.false_eq_true] at hx
        exact ih true x hx
      · simp only [replaceRunsGo, hc, Bool.false_eq_true, if_false, hb, List.mem_cons] at hx
        rcases hx with h | h
        · subst h; exact Or.inr rfl
        · exact ih true x h

theorem replaceRunsGo_true_head : ∀ (l : List Char) (c : Char),
    (replaceRunsGo true l).head? = some c → isSlugChar c = true := by
  intro l
  induction l with
  | nil => intro c h; simp [replaceRunsGo] at h
  | cons d ds ih =>
    intro c h
    by_cases hd : isSlugChar d = true
    · simp only [replaceRunsGo, hd, if_true, List.head?_cons, Option.some.injEq] at h
      subst h; exact hd
    · simp only [replaceRunsGo, hd, Bool.false_eq_true, if_false, if_true] at h
      exact ih c h

theorem replaceRunsGo_chain : ∀ (l : List Char) (b : Bool),
    List.Chain' hyR (replaceRunsGo b l) := by
  intro l
  induction l with
  | nil => intro b; simp [replaceRunsGo]
  | cons c cs ih =>
    intro b
    by_cases hc : isSlugChar c = true
    · rw [show replaceRunsGo b (c :: cs) = c :: replaceRunsGo false cs by
        simp [replaceRunsGo, hc]]
      rw [List.chain'_cons']
      refine ⟨fun y _ => ?_, ih false⟩
      intro hce
      exact absurd hc (by subst hce; decide)
    · by_cases hb : b = true
      · rw [show replaceRunsGo b (c :: cs) = replaceRunsGo true cs by
          simp [replaceRunsGo, hc, hb]]
        exact ih true
      · rw [show replaceRunsGo b (c :: cs) = '-' :: replaceRunsGo true cs by
          simp [replaceRunsGo, hc, hb]]
        rw [List.chain'_cons']
        refine ⟨fun y hy => ?_, ih true⟩
        rw [Option.mem_def] at hy
        intro _
        exact isSlugChar_ne_hyphen (replaceRunsGo_true_head cs y hy)

theorem chain'_dropLast {R : Char → Char → Prop} :
    ∀ l, List.Chain' R l → List.Chain' R l.dropLast
  | [], _ => by simp
  | [_], _ => by simp
  | a :: b :: rest, h => by
    have ih := chain'_dropLast (b :: rest) h.tail
    show List.Chain' R (a :: (b :: rest).dropLast)
    rw [List.chain'_cons']
    refine ⟨fun y hy => ?_, ih⟩
    rcases rest with _ | ⟨c, cs⟩
    · simp [List.dropLast] at hy
    · show R a y
      have : (b :: c :: cs).dropLast.head? = some b := rfl
      rw [Option.mem_def, this, Option.some.injEq] at hy
      subst hy
      exact (List.chain'_cons.mp h).1

theorem getLast?_dropLast_ne :
    ∀ l, List.Chain' hyR l → l.getLast? = some '-' → l.dropLast.getLast? ≠ some '-'
  | [], _, h => by simp at h
  | [_], _, _ => by simp [List.dropLast]
  | a :: b :: rest, hch, hl => by
    rcases rest with _ | ⟨c, cs⟩
    · have hb : b = '-' := by simpa using hl
      have ha : a ≠ '-' := fun hae => (List.chain'_cons.mp hch).1 hae hb
      simpa [List.dropLast] using ha
    · have ih := getLast?_dropLast_ne (b :: c :: cs) hch.tail
        (by rw [List.getLast?_cons_cons] at hl; exact hl)
      show (a :: (b :: c :: cs).dropLast).getLast? ≠ some '-'
      have hd : (b :: c :: cs).dropLast = b :: (c :: cs).dropLast := rfl
      rw [hd, List.getLast?_cons_cons]
      rw [hd] at ih
      exact ih

theorem head?_dropLast : ∀ (l : List Char) (x : Char),
    l.dropLast.head? = some x → l.head? = some x
  | [], _ => by simp
  | [_], _ => by simp [List.dropLast]
  | _ :: _ :: _, x => fun h => h

theorem allOkL_tail {l : List Char} (h : allOkL l) : allOkL l.tail :=
  fun c hc => h c ((List.tail_sublist l).subset hc)

theorem allOkL_dropLast {l : List Char} (h : allOkL l) : allOkL l.dropLast :=
  fun c hc => h c (List.dropLast_subset l hc)

theorem slugPat_false_of : ∀ l, allOkL l → List.Chain' hyR l →
    l.getLast? ≠ some '-' → slugPatOk false l = true
  | [], _, _, _ => rfl
  | [c], hok, _, hlast => by
    rcases hok c (by simp) with h | h
    · simp [slugPatOk, h]
    · subst h; simp at hlast
  | c :: d :: rest, hok, hch, hlast => by
    rcases hok c (by simp) with hc | hc
    · have ih := slugPat_false_of (d :: rest) (allOkL_tail hok) hch.tail
        (by rw [List.getLast?_cons_cons] at hlast; exact hlast)
      simpa [slugPatOk, hc] using ih
    · subst hc
      have hd : d ≠ '-' := (List.chain'_cons.mp hch).1 rfl
      have hdal : isSlugChar d = true := by
        rcases hok d (by simp) with h | h
        · exact h
        · exact absurd h hd
      have hrest : slugPatOk false rest = true := by
        rcases rest with _ | ⟨e, es⟩
        · rfl
        · exact slugPat_false_of (e :: es) (allOkL_tail (allOkL_tail hok)) hch.tail.tail
            (by rw [List.getLast?_cons_cons, List.getLast?_cons_cons] at hlast; exact hlast)
      simp [slugPatOk, hdal, hrest, show isSlugChar '-' = false from rfl]

theorem matchesSlugPattern_of (l : List Char) (hok : allOkL l)
    (hch : List.Chain' hyR l) (hhead : l.head? ≠ some '-')
    (hlast : l.getLast? ≠ some '-') (hne : l ≠ []) :
    matchesSlugPattern l = true := by
  rcases l with _ | ⟨c, cs⟩
  · exact absurd rfl hne
  · have hc : isSlugChar c = true := by
      rcases hok c (by simp) with h | h
      · exact h
      · subst h; simp at hhead
    have hcs : slugPatOk false cs = true := by
      rcases cs with _ | ⟨d, ds⟩
      · rfl
      · exact slugPat_false_of (d :: ds) (allOkL_tail hok) hch.tail
          (by rw [List.getLast?_cons_cons] at hlast; exact hlast)
    simp [matchesSlugPattern, slugPatOk, hc, hcs]

theorem stripEdge_invariants (l : List Char) (hok : allOkL l)
    (hch : List.Chain' hyR l) :
    allOkL (stripEdgeHyphens l) ∧ List.Chain' hyR (stripEdgeHyphens l) ∧
    (stripEdgeHyphens l).head? ≠ some '-' ∧ (stripEdgeHyphens l).getLast? ≠ some '-' := by
  unfold stripEdgeHyphens
  by_cases h1 : l.head? = some '-'
  · rw [if_pos h1]
    have hok1 : allOkL l.tail := allOkL_tail hok
    have hch1 : List.Chain' hyR l.tail := hch.tail
    have hhd1 : l.tail.head? ≠ some '-' := by
      rcases l with _ | ⟨c, cs⟩
      · simp
      · have hc : c = '-' := by simpa using h1
        subst hc
        rcases cs with _ | ⟨d, ds⟩
        · simp
        · intro hcon
          have hd : d = '-' := by simpa using hcon
          exact (List.chain'_cons.mp hch).1 rfl hd
    by_cases h2 : l.tail.getLast? = some '-'
    · rw [if_pos h2]
      exact ⟨allOkL_dropLast hok1, chain'_dropLast _ hch1,
        fun hcon => hhd1 (head?_dropLast _ _ hcon),
        getLast?_dropLast_ne _ hch1 h2⟩
    · rw [if_neg h2]
      exact ⟨hok1, hch1, hhd1, h2⟩
  · rw [if_neg h1]
    by_cases h2 : l.getLast? = some '-'
    · rw [if_pos h2]
      exact ⟨allOkL_dropLast hok, chain'_dropLast _ hch,
        fun hcon => h1 (head?_dropLast _ _ hcon),
        getLast?_dropLast_ne _ hch h2⟩
    · rw [if_neg h2]
      exact ⟨hok, hch, h1, h2⟩

theorem slugify_invariants (s : String) :
    slugify s = "player" ∨
    (allOkL (slugify s).data ∧ List.Chain' hyR (slugify s).data ∧
     (slugify s).data.head? ≠ some '-' ∧ (slugify s).data.getLast? ≠ some '-' ∧
     (slugify s).data ≠ []) := by
  have hinv := stripEdge_invariants (replaceNonAlnumRuns ((jsTrim s.data).map jsToLower))
    (replaceRunsGo_allOk _ false) (replaceRunsGo_chain _ false)
  by_cases he :
      (stripEdgeHyphens (replaceNonAlnumRuns ((jsTrim s.data).map jsToLower))).isEmpty = true
  · left
    simp [slugify, he]
  · right
    have hval : slugify s =
        String.mk (stripEdgeHyphens (replaceNonAlnumRuns ((jsTrim s.data).map jsToLower))) := by
      simp [slugify, he]
    rw [hval]
    refine ⟨hinv.1, hinv.2.1, hinv.2.2.1, hinv.2.2.2, ?_⟩
    intro hcon
    rw [List.isEmpty_iff] at he
    exact he hcon

theorem jsWhitespace_false_of_ok {c : Char} (h : isSlugChar c = true ∨ c = '-') :
    jsWhitespace c = false := by
  rcases h with h | h
  · simp only [isSlugChar, Bool.or_eq_true, Bool.and_eq_true, decide_eq_true_eq] at h
    simp only [jsWhitespace, Bool.or_eq_false_iff, Bool.and_eq_false_iff,
      decide_eq_false_iff_not]
    omega
  · subst h; rfl

theorem jsToLower_fix {c : Char} (h : isSlugChar c = true ∨ c = '-') :
    jsToLower c = c := by
  rcases h with h | h
  · simp only [isSlugChar, Bool.or_eq_true, Bool.and_eq_true, decide_eq_true_eq] at h
    have hcond : (65 ≤ c.toNat && c.toNat ≤ 90) = false := by
      simp only [Bool.and_eq_false_iff, decide_eq_false_iff_not]
      omega
    simp [jsToLower, hcond]
  · subst h; rfl

theorem dropWhile_fix (l : List Char) (p : Char → Bool)
    (h : ∀ c ∈ l, p c = false) : l.dropWhile p = l := by
  cases l with
  | nil => rfl
  | cons c cs => simp [List.dropWhile_cons, h c (by simp)]

theorem jsTrim_fix (l : List Char) (hok : allOkL l) : jsTrim l = l := by
  unfold jsTrim
  rw [dropWhile_fix l _ (fun c hc => jsWhitespace_false_of_ok (hok c hc))]
  rw [dropWhile_fix l.reverse _ (fun c hc =>
    jsWhitespace_false_of_ok (hok c (List.mem_reverse.mp hc)))]
  exact List.reverse_reverse l

theorem replaceRunsGo_fix : ∀ l, allOkL l → List.Chain' hyR l →
    replaceRunsGo false l = l ∧ (l.head? ≠ some '-' → replaceRunsGo true l = l) := by
  intro l
  induction l with
  | nil => exact fun _ _ => ⟨rfl, fun _ => rfl⟩
  | cons c cs ih =>
    intro hok hch
    have ihcs := ih (allOkL_tail hok) hch.tail
    rcases hok c (by simp) with hc | hc
    · constructor
      · simp [replaceRunsGo, hc, ihcs.1]
      · intro _; simp [replaceRunsGo, hc, ihcs.1]
    · subst hc
      have h1 : replaceRunsGo true cs = cs := by
        rcases cs with _ | ⟨d, ds⟩
        · rfl
        · refine ihcs.2 ?_
          intro hd
          have hd' : d = '-' := by simpa using hd
          exact (List.chain'_cons.mp hch).1 rfl hd'
      refine ⟨?_, fun hh => absurd rfl hh⟩
      simp [replaceRunsGo, show isSlugChar '-' = false from rfl, h1]

theorem stripEdgeHyphens_fix (l : List Char) (h1 : l.head? ≠ some '-')
    (h2 : l.getLast? ≠ some '-') : stripEdgeHyphens l = l := by
  unfold stripEdgeHyphens
  rw [if_neg h1, if_neg h2]

theorem slugify_fix_of_invariants (t : String) (hok : allOkL t.data)
    (hch : List.Chain' hyR t.data) (hhd : t.data.head? ≠ some '-')
    (hlast : t.data.getLast? ≠ some '-') (hne : t.data ≠ []) :
    slugify t = t := by
  have hmap : t.data.map jsToLower = t.data := by
    calc t.data.map jsToLower = t.data.map id :=
          List.map_congr_left (fun a ha => jsToLower_fix (hok a ha))
      _ = t.data := List.map_id t.data
  have hempty : (stripEdgeHyphens (replaceNonAlnumRuns ((jsTrim t.data).map jsToLower))).isEmpty
      = false := by
    rw [jsTrim_fix t.data hok, hmap]
    unfold replaceNonAlnumRuns
    rw [(replaceRunsGo_fix t.data hok hch).1, stripEdgeHyphens_fix t.data hhd hlast]
    rcases hd : t.data with _ | _
    · exact absurd hd hne
    · rfl
  simp only [slugify]
  rw [hempty]
  simp only [Bool.false_eq_true, if_false]
  rw [jsTrim_fix t.data hok, hmap]
  unfold replaceNonAlnumRuns
  rw [(replaceRunsGo_fix t.data hok hch).1, stripEdgeHyphens_fix t.data hhd hlast]

/-! ### Round-trip of the content encoding -/

theorem utf8DecodeLenient_encodeChar (n : Nat) (hv : n < 1114112)
    (hs : ¬(55296 ≤ n ∧ n ≤ 57343)) (rest : List Nat) :
    utf8DecodeLenient (utf8EncodeChar n ++ rest) = n :: utf8DecodeLenient rest := by
  by_cases h1 : n < 128
  · rw [show utf8EncodeChar n = [n] by simp [utf8EncodeChar, h1]]
    show utf8DecodeLenient (n :: rest) = n :: utf8DecodeLenient rest
    rw [utf8DecodeLenient_cons, if_pos h1]
  · by_cases h2 : n < 2048
    · rw [show utf8EncodeChar n = [192 + n / 64, 128 + n % 64] by
        simp [utf8EncodeChar, h1, h2]]
      show utf8DecodeLenient ((192 + n / 64) :: (128 + n % 64) :: rest) =
        n :: utf8DecodeLenient rest
      rw [utf8DecodeLenient_cons]
      simp only [List.headD_cons, List.drop_succ_cons, List.drop_zero]
      split_ifs <;> first
        | (exfalso; omega)
        | (simp only [List.cons.injEq]; exact ⟨by omega, trivial⟩)
    · by_cases h3 : n < 65536
      · rw [show utf8EncodeChar n = [224 + n / 4096, 128 + n / 64 % 64, 128 + n % 64] by
          simp [utf8EncodeChar, h1, h2, h3]]
        show utf8DecodeLenient
            ((224 + n / 4096) :: (128 + n / 64 % 64) :: (128 + n % 64) :: rest) =
          n :: utf8DecodeLenient rest
        rw [utf8DecodeLenient_cons]
        simp only [List.headD_cons, List.drop_succ_cons, List.drop_zero]
        split_ifs <;> first
          | (exfalso; omega)
          | (simp only [List.cons.injEq]; exact ⟨by omega, trivial⟩)
      · rw [show utf8EncodeChar n =
            [240 + n / 262144, 128 + n / 4096 % 64, 128 + n / 64 % 64, 128 + n % 64] by
          simp [utf8EncodeChar, h1, h2, h3]]
        show utf8DecodeLenient ((240 + n / 262144) :: (128 + n / 4096 % 64) ::
            (128 + n / 64 % 64) :: (128 + n % 64) :: rest) = n :: utf8DecodeLenient rest
        rw [utf8DecodeLenient_cons]
        simp only [List.headD_cons, List.drop_succ_cons, List.drop_zero]
        split_ifs <;> first
          | (exfalso; omega)
          | (simp only [List.cons.injEq]; exact ⟨by omega, trivial⟩)

theorem utf8_roundtrip : ∀ cps : List Nat,
    (∀ c ∈ cps, c < 1114112 ∧ ¬(55296 ≤ c ∧ c ≤ 57343)) →
    utf8DecodeLenient (utf8Encode cps) = cps := by
  intro cps h
  induction cps with
  | nil => rw [show utf8Encode [] = [] from rfl, utf8DecodeLenient]
  | cons c cs ih =>
    rw [show utf8Encode (c :: cs) = utf8EncodeChar c ++ utf8Encode cs from rfl]
    rw [utf8DecodeLenient_encodeChar c (h c (by simp)).1 (h c (by simp)).2]
    rw [ih (fun x hx => h x (by simp [hx]))]

theorem utf8EncodeChar_lt (n : Nat) (h : n < 1114112) :
    ∀ b ∈ utf8EncodeChar n, b < 256 := by
  intro b hb
  unfold utf8EncodeChar at hb
  split_ifs at hb <;> simp at hb <;> omega

theorem utf8Encode_lt : ∀ cps : List Nat, (∀ c ∈ cps, c < 1114112) →
    ∀ b ∈ utf8Encode cps, b < 256 := by
  intro cps h
  induction cps with
  | nil => simp [utf8Encode]
  | cons c cs ih =>
    intro b hb
    rw [show utf8Encode (c :: cs) = utf8EncodeChar c ++ utf8Encode cs from rfl,
      List.mem_append] at hb
    rcases hb with hb | hb
    · exact utf8EncodeChar_lt c (h c (by simp)) b hb
    · exact ih (fun x hx => h x (by simp [hx])) b hb

theorem b64DecChar_b64Char : ∀ n : Nat, n < 64 → b64DecChar (b64Char n) = some n := by
  decide

theorem b64DecChar_pad : b64DecChar '=' = none := rfl

theorem b64_roundtrip : ∀ bs : List Nat, (∀ b ∈ bs, b < 256) →
    base64Decode (base64Encode bs) = bs
  | [], _ => rfl
  | [a], h => by
    have ha : a < 256 := h a (by simp)
    show b64Bytes (List.filterMap b64DecChar
      [b64Char (a / 4), b64Char (a % 4 * 16), '=', '=']) = [a]
    rw [List.filterMap_cons_some (b64DecChar_b64Char (a / 4) (by omega)),
      List.filterMap_cons_some (b64DecChar_b64Char (a % 4 * 16) (by omega)),
      List.filterMap_cons_none b64DecChar_pad,
      List.filterMap_cons_none b64DecChar_pad]
    show [a / 4 * 4 + a % 4 * 16 / 16] = [a]
    simp only [List.cons.injEq]
    exact ⟨by omega, trivial⟩
  | [a, b], h => by
    have ha : a < 256 := h a (by simp)
    have hb : b < 256 := h b (by simp)
    show b64Bytes (List.filterMap b64DecChar
      [b64Char (a / 4), b64Char (a % 4 * 16 + b / 16), b64Char (b % 16 * 4), '=']) = [a, b]
    rw [List.filterMap_cons_some (b64DecChar_b64Char (a / 4) (by omega)),
      List.filterMap_cons_some (b64DecChar_b64Char (a % 4 * 16 + b / 16) (by omega)),
      List.filterMap_cons_some (b64DecChar_b64Char (b % 16 * 4) (by omega)),
      List.filterMap_cons_none b64DecChar_pad]
    show [a / 4 * 4 + (a % 4 * 16 + b / 16) / 16,
      (a % 4 * 16 + b / 16) % 16 * 16 + b % 16 * 4 / 4] = [a, b]
    simp only [List.cons.injEq]
    exact ⟨by omega, by omega, trivial⟩
  | a :: b :: c :: rest, h => by
    have ha : a < 256 := h a (by simp)
    have hb : b < 256 := h b (by simp)
    have hc : c < 256 := h c (by simp)
    have ih := b64_roundtrip rest (fun x hx => h x (by simp [hx]))
    show b64Bytes (List.filterMap b64DecChar (b64Char (a / 4) ::
      b64Char (a % 4 * 16 + b / 16) :: b64Char (b % 16 * 4 + c / 64) ::
      b64Char (c % 64) :: base64Encode rest)) = a :: b :: c :: rest
    rw [List.filterMap_cons_some (b64DecChar_b64Char (a / 4) (by omega)),
      List.filterMap_cons_some (b64DecChar_b64Char (a % 4 * 16 + b / 16) (by omega)),
      List.filterMap_cons_some (b64DecChar_b64Char (b % 16 * 4 + c / 64) (by omega)),
      List.filterMap_cons_some (b64DecChar_b64Char (c % 64) (by omega))]
    show (a / 4 * 4 + (a % 4 * 16 + b / 16) / 16) ::
      ((a % 4 * 16 + b / 16) % 16 * 16 + (b % 16 * 4 + c / 64) / 4) ::
      ((b % 16 * 4 + c / 64) % 4 * 64 + c % 64) ::
      b64Bytes (List.filterMap b64DecChar (base64Encode rest)) = a :: b :: c :: rest
    rw [show b64Bytes (List.filterMap b64DecChar (base64Encode rest)) =
      base64Decode (base64Encode rest) from rfl, ih]
    simp only [List.cons.injEq]
    exact ⟨by omega, by omega, by omega, trivial⟩

theorem char_scalar_bounds (c : Char) :
    c.toNat < 1114112 ∧ ¬(55296 ≤ c.toNat ∧ c.toNat ≤ 57343) := by
  have h : Nat.isValidChar c.toNat := c.valid
  rcases h with h | h
  · exact ⟨by omega, by omega⟩
  · exact ⟨by omega, by omega⟩

/-- `Buffer.from(s, 'base64').toString('utf8')` inverts
`Buffer.from(s).toString('base64')`. -/
theorem strOfB64_b64OfString (s : String) : strOfB64 (b64OfString s) = s := by
  have hbytes : ∀ b ∈ strBytes s, b < 256 := by
    apply utf8Encode_lt
    intro c hc
    rw [List.mem_map] at hc
    obtain ⟨ch, _, rfl⟩ := hc
    exact (char_scalar_bounds ch).1
  have hdec : utf8DecodeLenient (strBytes s) = s.data.map Char.toNat := by
    apply utf8_roundtrip
    intro c hc
    rw [List.mem_map] at hc
    obtain ⟨ch, _, rfl⟩ := hc
    exact char_scalar_bounds ch
  unfold strOfB64 b64OfString
  rw [show (String.mk (base64Encode (strBytes s))).data = base64Encode (strBytes s) from rfl]
  rw [b64_roundtrip _ hbytes, hdec, List.map_map]
  have hid : s.data.map (Char.ofNat ∘ Char.toNat) = s.data.map id :=
    List.map_congr_left (fun a _ => Char.ofNat_toNat a)
  rw [hid, List.map_id]

/-! ### Behaviour of the request handlers -/

/-- After a passed gate and successful validation, `handleSave` is its
post-validation body. -/
theorem handleSave_eq_upsert (cfg : Config) (bh : BackendBehavior) (key : Option String)
    (reqBody : Json) (now : String) (p c : Json)
    (hgate : apiKeyGate cfg key = none)
    (hp : getField (normBody reqBody) "profile" = some p) (hpt : truthy p = true)
    (hc : getField (normBody reqBody) "checks" = some c) (hct : truthy c = true) :
    handleSave cfg bh key reqBody now =
      (match githubUpsertFile cfg bh
          (cfg.dir ++ "/" ++ slugifyOfJson (getField p "discord") ++ ".json")
          (Json.obj [("profile", p), ("checks", c), ("savedAt", Json.str now),
            ("version", Json.num 1)])
          ("Onboarding save for " ++
            (match getField p "discord" with
             | some d => if truthy d then jsToString d else slugifyOfJson (getField p "discord")
             | none => slugifyOfJson (getField p "discord"))) with
       | (Except.ok result, calls) =>
         ({ status := 200
            body := RespBody.json (Json.obj [("ok", Json.bool true),
              ("path", Json.str (cfg.dir ++ "/" ++ slugifyOfJson (getField p "discord") ++ ".json")),
              ("commit", jsOrNull (optChain (getField result "commit") "sha"))]) }, calls)
       | (Except.error e, calls) =>
         ({ status := 500, body := RespBody.json (errorJson e) }, calls)) := by
  unfold handleSave
  rw [hgate]
  dsimp only
  rw [hp, hc]
  dsimp only
  rw [if_pos (show (truthy p && truthy c) = true by simp [hpt, hct])]

/-- When the backend GET at `path` does not fail and every PUT succeeds with
response `resp`, `githubUpsertFile` performs exactly a GET then a PUT whose
request has the documented shape. -/
theorem githubUpsertFile_ok (cfg : Config) (bh : BackendBehavior) (path : String)
    (contentJson : Json) (message : String) (resp : Json)
    (hget : ∀ st b, bh.get path ≠ GetResult.fail st b)
    (hput : ∀ r, bh.put r = PutResult.ok resp) :
    githubUpsertFile cfg bh path contentJson message =
      (Except.ok resp, [Call.get path, Call.put
        { path := path
          message := if message = "" then "Update " ++ path else message
          content := b64OfString (jsonStringify contentJson "")
          branch := cfg.branch
          sha := match bh.get path with
                 | GetResult.found f => if f.sha = "" then none else some f.sha
                 | _ => none }]) := by
  unfold githubUpsertFile
  rcases hg : bh.get path with _ | f | ⟨st, b⟩
  · dsimp only
    simp only [hput]
  · dsimp only
    simp only [hput]
  · exact absurd hg (hget st b)

theorem storeBehavior_get_ne_fail (m : List (String × FileEntry)) (putResp : Json)
    (pa : String) (st : Nat) (b : String) :
    (storeBehavior m putResp).get pa ≠ GetResult.fail st b := by
  unfold storeBehavior
  rcases hk : kvGet m pa with _ | f <;> simp [hk]

theorem storeBehavior_put_ok (m : List (String × FileEntry)) (putResp : Json)
    (r : PutRequest) : (storeBehavior m putResp).put r = PutResult.ok putResp :=
  rfl

/-- C2: for every path, content and message, the upsert first fetches the
object at the path, then calls the write primitive with that path, the
configured branch, the commit message (defaulted when empty), the
base64-encoded pretty-printed JSON content, and the discovered version token
exactly when an object already existed (assuming, as the spec's data model
does, that found objects carry a non-empty version token). -/
theorem c2_upsert_write_shape (cfg : Config) (bh : BackendBehavior) (path : String)
    (contentJson : Json) (message : String)
    (hget : ∀ st b, bh.get path ≠ GetResult.fail st b)
    (hsha : ∀ f, bh.get path = GetResult.found f → f.sha ≠ "") :
    ∃ req : PutRequest,
      (githubUpsertFile cfg bh path contentJson message).2 =
        [Call.get path, Call.put req] ∧
      req.path = path ∧
      req.branch = cfg.branch ∧
      req.message = (if message = "" then "Update " ++ path else message) ∧
      req.content = b64OfString (jsonStringify contentJson "") ∧
      (req.sha.isSome = true ↔ ∃ f, bh.get path = GetResult.found f) ∧
      (∀ f, bh.get path = GetResult.found f → req.sha = some f.sha) := by
  unfold githubUpsertFile
  rcases hg : bh.get path with _ | f | ⟨st, b⟩
  · refine ⟨⟨path, (if message = "" then "Update " ++ path else message),
      b64OfString (jsonStringify contentJson ""), cfg.branch, none⟩,
      ?_, rfl, rfl, rfl, rfl, ?_, ?_⟩
    · rcases hp2 : bh.put ⟨path, (if message = "" then "Update " ++ path else message),
          b64OfString (jsonStringify contentJson ""), cfg.branch, none⟩ with resp | ⟨st2, b2⟩ <;>
        simp [hp2]
    · simp
    · intro f h
      exact absurd h (by simp)
  · have hne := hsha f hg
    refine ⟨⟨path, (if message = "" then "Update " ++ path else message),
      b64OfString (jsonStringify contentJson ""), cfg.branch, some f.sha⟩,
      ?_, rfl, rfl, rfl, rfl, ?_, ?_⟩
    · rcases hp2 : bh.put ⟨path, (if message = "" then "Update " ++ path else message),
          b64OfString (jsonStringify contentJson ""), cfg.branch, some f.sha⟩ with
          resp | ⟨st2, b2⟩ <;>
        simp [hp2, hne]
    · simp
    · intro f' h
      cases h
      rfl
  · exact absurd hg (hget st b)

theorem c2_upsert_write_shape_witness :
    (∀ st b, (storeBehavior [("saves/x.json", { content := "QQ==", sha := "sha1" })]
        Json.null).get "saves/x.json" ≠ GetResult.fail st b) ∧
    ∃ req : PutRequest,
      (githubUpsertFile { apiKey := "", branch := "main", dir := "saves" }
        (storeBehavior [("saves/x.json", { content := "QQ==", sha := "sha1" })] Json.null)
        "saves/x.json" (Json.obj []) "msg").2 = [Call.get "saves/x.json", Call.put req] ∧
      req.path = "saves/x.json" ∧
      req.branch = "main" ∧
      req.message = (if "msg" = "" then "Update " ++ "saves/x.json" else "msg") ∧
      req.content = b64OfString (jsonStringify (Json.obj []) "") ∧
      (req.sha.isSome = true ↔ ∃ f, (storeBehavior
        [("saves/x.json", { content := "QQ==", sha := "sha1" })] Json.null).get "saves/x.json"
          = GetResult.found f) ∧
      (∀ f, (storeBehavior [("saves/x.json", { content := "QQ==", sha := "sha1" })]
          Json.null).get "saves/x.json" = GetResult.found f → req.sha = some f.sha) :=
  ⟨fun st b => storeBehavior_get_ne_fail _ _ _ st b,
    c2_upsert_write_shape _ _ _ _ _
      (fun st b => storeBehavior_get_ne_fail _ _ _ st b)
      (by intro f h; cases h; decide)⟩

/-- C3: a save request whose (normalized) body is missing `profile` or
missing `checks` is answered with 400 and performs no backend call. -/
theorem c3_missing_fields_rejected (cfg : Config) (bh : BackendBehavior)
    (key : Option String) (reqBody : Json) (now : String)
    (hgate : apiKeyGate cfg key = none)
    (hmiss : getField (normBody reqBody) "profile" = none ∨
      getField (normBody reqBody) "checks" = none) :
    handleSave cfg bh key reqBody now =
      ({ status := 400, body := RespBody.json (errorJson "Missing profile or checks") },
        []) := by
  unfold handleSave
  rw [hgate]
  dsimp only
  rcases hp : getField (normBody reqBody) "profile" with _ | p
  · rcases hc2 : getField (normBody reqBody) "checks" with _ | c2 <;> rfl
  · rcases hc2 : getField (normBody reqBody) "checks" with _ | c2
    · rfl
    · rcases hmiss with h | h
      · rw [hp] at h
        cases h
      · rw [hc2] at h
        cases h

theorem c3_missing_fields_rejected_witness :
    apiKeyGate { apiKey := "", branch := "main", dir := "saves" } none = none ∧
    getField (normBody (Json.obj [("checks", Json.bool true)])) "profile" = none ∧
    handleSave { apiKey := "", branch := "main", dir := "saves" }
        (storeBehavior [] Json.null) none (Json.obj [("checks", Json.bool true)]) "t" =
      ({ status := 400, body := RespBody.json (errorJson "Missing profile or checks") },
        []) :=
  ⟨rfl, rfl, c3_missing_fields_rejected _ _ _ _ _ rfl (Or.inl rfl)⟩

/-- C4: with a configured non-empty secret, a request whose `x-api-key`
header is absent or different is answered 401 on every route with no backend
call; with no secret configured the gate rejects nothing. -/
theorem c4_shared_secret_gate (cfg : Config) (bh : BackendBehavior)
    (key : Option String) (reqBody : Json) (now slugParam : String) :
    (cfg.apiKey ≠ "" → key ≠ some cfg.apiKey →
      handleSave cfg bh key reqBody now =
        ({ status := 401, body := RespBody.json (errorJson "Unauthorized") }, []) ∧
      handleLoad cfg bh key slugParam =
        ({ status := 401, body := RespBody.json (errorJson "Unauthorized") }, []) ∧
      handleHealth cfg key =
        ({ status := 401, body := RespBody.json (errorJson "Unauthorized") }, [])) ∧
    (cfg.apiKey = "" → apiKeyGate cfg key = none) := by
  constructor
  · intro h1 h2
    have hg : apiKeyGate cfg key =
        some { status := 401, body := RespBody.json (errorJson "Unauthorized") } := by
      unfold apiKeyGate
      rw [if_neg h1, if_neg h2]
    exact ⟨by unfold handleSave; rw [hg], by unfold handleLoad; rw [hg],
      by unfold handleHealth; rw [hg]⟩
  · intro h
    unfold apiKeyGate
    rw [if_pos h]

theorem c4_shared_secret_gate_witness :
    (handleSave { apiKey := "secret", branch := "main", dir := "saves" }
        (storeBehavior [] Json.null) none (Json.obj []) "t" =
      ({ status := 401, body := RespBody.json (errorJson "Unauthorized") }, [])) ∧
    apiKeyGate { apiKey := "", branch := "main", dir := "saves" } (some "anything") = none :=
  ⟨((c4_shared_secret_gate _ (storeBehavior [] Json.null) none (Json.obj []) "t" "x").1
      (by decide) (by decide)).1,
    (c4_shared_secret_gate { apiKey := "", branch := "main", dir := "saves" }
      (storeBehavior [] Json.null) (some "anything") (Json.obj []) "t" "x").2 rfl⟩

/-- C5: loading a slug whose derived path has no stored object (the read
primitive reports 404) is answered 404 `Not found`, not an error and not a
success body. -/
theorem c5_load_not_found (cfg : Config) (bh : BackendBehavior) (key : Option String)
    (slugParam : String) (hgate : apiKeyGate cfg key = none)
    (habs : bh.get (cfg.dir ++ "/" ++ slugify slugParam ++ ".json") = GetResult.notFound) :
    handleLoad cfg bh key slugParam =
      ({ status := 404, body := RespBody.json (errorJson "Not found") },
        [Call.get (cfg.dir ++ "/" ++ slugify slugParam ++ ".json")]) := by
  unfold handleLoad githubGetContent
  rw [hgate]
  dsimp only
  rw [habs]

theorem c5_load_not_found_witness :
    apiKeyGate { apiKey := "", branch := "main", dir := "saves" } none = none ∧
    (storeBehavior [] Json.null).get ("saves" ++ "/" ++ slugify "Ann Bee" ++ ".json") =
      GetResult.notFound ∧
    handleLoad { apiKey := "", branch := "main", dir := "saves" }
        (storeBehavior [] Json.null) none "Ann Bee" =
      ({ status := 404, body := RespBody.json (errorJson "Not found") },
        [Call.get ("saves" ++ "/" ++ slugify "Ann Bee" ++ ".json")]) :=
  ⟨rfl, rfl, c5_load_not_found _ _ _ _ rfl rfl⟩

/-- C6 counterexample: with a configured secret and no `x-api-key` header,
the health endpoint does not answer 200 — the shared-secret middleware, which
runs in front of every route, answers 401 — refuting the claim's "under any
configuration". -/
theorem c6_health_counterexample :
    (handleHealth { apiKey := "secret", branch := "main", dir := "saves" } none).1.status
        = 401 ∧
    (handleHealth { apiKey := "secret", branch := "main", dir := "saves" } none).1.status
        ≠ 200 := by
  constructor <;> decide

/-- C6 (amended): every request to the health endpoint that passes the
shared-secret gate — in particular every request when no secret is
configured — is answered 200 `{ok: true}` with no backend call. -/
theorem c6_health_ok (cfg : Config) (key : Option String)
    (hgate : apiKeyGate cfg key = none) :
    handleHealth cfg key =
      ({ status := 200, body := RespBody.json (Json.obj [("ok", Json.bool true)]) }, []) := by
  unfold handleHealth
  rw [hgate]

theorem c6_health_ok_witness :
    apiKeyGate { apiKey := "", branch := "main", dir := "saves" } none = none ∧
    handleHealth { apiKey := "", branch := "main", dir := "saves" } none =
      ({ status := 200, body := RespBody.json (Json.obj [("ok", Json.bool true)]) }, []) :=
  ⟨rfl, c6_health_ok _ none rfl⟩

/-- C10: a save request in which `profile` or `checks` is present but a falsy
JSON value is rejected with 400 and performs no backend call, exactly as if
the field were absent. -/
theorem c10_falsy_fields_rejected (cfg : Config) (bh : BackendBehavior)
    (key : Option String) (reqBody : Json) (now : String)
    (hgate : apiKeyGate cfg key = none)
    (hfalsy : (∃ v, getField (normBody reqBody) "profile" = some v ∧ truthy v = false) ∨
      (∃ v, getField (normBody reqBody) "checks" = some v ∧ truthy v = false)) :
    handleSave cfg bh key reqBody now =
      ({ status := 400, body := RespBody.json (errorJson "Missing profile or checks") },
        []) := by
  unfold handleSave
  rw [hgate]
  dsimp only
  rcases hfalsy with ⟨v, hv, hfv⟩ | ⟨v, hv, hfv⟩
  · rcases hc2 : getField (normBody reqBody) "checks" with _ | c2
    · rw [hv]
    · rw [hv]
      simp [hfv]
  · rcases hp : getField (normBody reqBody) "profile" with _ | p
    · rfl
    · rw [hv]
      simp [hfv]

theorem c10_falsy_fields_rejected_witness :
    apiKeyGate { apiKey := "", branch := "main", dir := "saves" } none = none ∧
    getField (normBody (Json.obj [("profile", Json.bool false), ("checks", Json.bool true)]))
      "profile" = some (Json.bool false) ∧
    truthy (Json.bool false) = false ∧
    handleSave { apiKey := "", branch := "main", dir := "saves" }
        (storeBehavior [] Json.null) none
        (Json.obj [("profile", Json.bool false), ("checks", Json.bool true)]) "t" =
      ({ status := 400, body := RespBody.json (errorJson "Missing profile or checks") },
        []) :=
  ⟨rfl, rfl, rfl, c10_falsy_fields_rejected _ _ _ _ _ rfl
    (Or.inl ⟨Json.bool false, rfl, rfl⟩)⟩

/-- C9: a successful save whose backend PUT response omits the commit
identifier still reports success: 200 with `ok: true` and `commit: null`. -/
theorem c9_missing_commit_ok (cfg : Config) (bh : BackendBehavior) (key : Option String)
    (reqBody : Json) (now : String) (p c resp : Json)
    (hgate : apiKeyGate cfg key = none)
    (hp : getField (normBody reqBody) "profile" = some p) (hpt : truthy p = true)
    (hc : getField (normBody reqBody) "checks" = some c) (hct : truthy c = true)
    (hget : ∀ pa st b, bh.get pa ≠ GetResult.fail st b)
    (hput : ∀ r, bh.put r = PutResult.ok resp)
    (hcommit : getField resp "commit" = none) :
    ∃ pth : String, (handleSave cfg bh key reqBody now).1 =
      { status := 200
        body := RespBody.json (Json.obj [("ok", Json.bool true), ("path", Json.str pth),
          ("commit", Json.null)]) } := by
  rw [handleSave_eq_upsert cfg bh key reqBody now p c hgate hp hpt hc hct]
  rw [githubUpsertFile_ok cfg bh _ _ _ resp (fun st b => hget _ st b) hput]
  exact ⟨cfg.dir ++ "/" ++ slugifyOfJson (getField p "discord") ++ ".json",
    by simp [optChain, jsOrNull, hcommit]⟩

theorem c9_missing_commit_ok_witness :
    getField (Json.obj []) "commit" = none ∧
    ∃ pth : String,
      (handleSave { apiKey := "", branch := "main", dir := "saves" }
        (storeBehavior [] (Json.obj [])) none
        (Json.obj [("profile", Json.obj [("discord", Json.str "Ann Bee")]),
          ("checks", Json.obj [("done", Json.bool true)])]) "t").1 =
      { status := 200
        body := RespBody.json (Json.obj [("ok", Json.bool true), ("path", Json.str pth),
          ("commit", Json.null)]) } :=
  ⟨rfl, c9_missing_commit_ok _ _ _ _ _ _ _ _ rfl rfl rfl rfl rfl
    (fun pa st b => storeBehavior_get_ne_fail _ _ pa st b)
    (fun r => storeBehavior_put_ok _ _ r) rfl⟩

theorem storeBehavior_get_insert (pa : String) (f : FileEntry)
    (m : List (String × FileEntry)) (pr : Json) :
    (storeBehavior (kvInsert pa f m) pr).get pa = GetResult.found f := by
  simp [storeBehavior, kvInsert, kvGet]

/-- C1: assuming the content store behaves as a key-value map (`storeBehavior`
with `kvInsert` applying the PUT that `handleSave` performed), saving a body
with truthy `profile` and `checks` and then loading with the same identifying
field (`profile.discord`) answers 200 with the pretty-printed stored envelope,
whose `profile` and `checks` fields are exactly the saved ones. -/
theorem c1_save_load_roundtrip (cfg : Config) (m : List (String × FileEntry))
    (newSha : String) (putResp : Json) (key : Option String)
    (reqBody p c : Json) (now : String)
    (hgate : apiKeyGate cfg key = none)
    (hp : getField (normBody reqBody) "profile" = some p) (hpt : truthy p = true)
    (hc : getField (normBody reqBody) "checks" = some c) (hct : truthy c = true) :
    ∃ req : PutRequest,
      (handleSave cfg (storeBehavior m putResp) key reqBody now).2 =
        [Call.get req.path, Call.put req] ∧
      ∃ env : Json,
        (handleLoad cfg
            (storeBehavior (kvInsert req.path ⟨req.content, newSha⟩ m) putResp)
            key (jsStringOfOpt (getField p "discord"))).1 =
          { status := 200, body := RespBody.raw (jsonStringify env "") } ∧
        getField env "profile" = some p ∧ getField env "checks" = some c := by
  rw [handleSave_eq_upsert cfg (storeBehavior m putResp) key reqBody now p c hgate hp hpt hc hct]
  rw [githubUpsertFile_ok cfg (storeBehavior m putResp) _ _ _ putResp
    (fun st b => storeBehavior_get_ne_fail m putResp _ st b)
    (fun r => storeBehavior_put_ok m putResp r)]
  refine ⟨⟨_, _, _, _, _⟩, rfl, Json.obj [("profile", p), ("checks", c), ("savedAt", Json.str now),
    ("version", Json.num 1)], ?_, rfl, rfl⟩
  unfold handleLoad githubGetContent
  rw [hgate]
  simp only [slugifyOfJson]
  rw [storeBehavior_get_insert]
  dsimp only
  rw [strOfB64_b64OfString]

theorem c1_save_load_roundtrip_witness :
    ∃ req : PutRequest,
      (handleSave { apiKey := "", branch := "main", dir := "saves" }
          (storeBehavior [] Json.null) none
          (Json.obj [("profile", Json.obj [("discord", Json.str "Ann Bee")]),
            ("checks", Json.obj [("done", Json.bool true)])])
          "2026-01-01T00:00:00.000Z").2 =
        [Call.get req.path, Call.put req] ∧
      ∃ env : Json,
        (handleLoad { apiKey := "", branch := "main", dir := "saves" }
            (storeBehavior (kvInsert req.path ⟨req.content, "abc"⟩ []) Json.null)
            none
            (jsStringOfOpt (getField (Json.obj [("discord", Json.str "Ann Bee")])
              "discord"))).1 =
          { status := 200, body := RespBody.raw (jsonStringify env "") } ∧
        getField env "profile" = some (Json.obj [("discord", Json.str "Ann Bee")]) ∧
        getField env "checks" = some (Json.obj [("done", Json.bool true)]) :=
  c1_save_load_roundtrip { apiKey := "", branch := "main", dir := "saves" } [] "abc"
    Json.null none
    (Json.obj [("profile", Json.obj [("discord", Json.str "Ann Bee")]),
      ("checks", Json.obj [("done", Json.bool true)])])
    (Json.obj [("discord", Json.str "Ann Bee")])
    (Json.obj [("done", Json.bool true)])
    "2026-01-01T00:00:00.000Z" rfl rfl rfl rfl rfl

/-- C7: for every input string, the key normalizer's output either matches
`^[a-z0-9]+(-[a-z0-9]+)*$` or equals the fallback token `"player"`. -/
theorem c7_slug_pattern (s : String) :
    matchesSlugPattern (slugify s).data = true ∨ slugify s = "player" := by
  rcases slugify_invariants s with h | ⟨hok, hch, hhd, hlast, hne⟩
  · exact Or.inr h
  · exact Or.inl (matchesSlugPattern_of _ hok hch hhd hlast hne)

/-- C8: key normalization is idempotent: `slugify (slugify s) = slugify s`
for every input string. -/
theorem c8_slugify_idempotent (s : String) :
    slugify (slugify s) = slugify s := by
  rcases slugify_invariants s with h | ⟨hok, hch, hhd, hlast, hne⟩
  · rw [h]; decide
  · exact slugify_fix_of_invariants (slugify s) hok hch hhd hlast hne

end MWZ
